import Mathlib

/-!
# Verification of the hook execution engine and storage layer

This development embeds, in Lean 4, the core behaviour of the repository's
hook execution engine (descriptor decoding, per-hook-type result combination,
and the runner pipeline) together with the `ClineStorage` template-method
storage layer and its `ClineSecretStorage` / `InMemoryClineStorage`
subclasses, and proves the specified properties about them.

The hook engine itself (HookFactory / HookRunner / ProcessInvoker /
ResponseDecoder / ResultCombiner) is exercised by the repository's test-suite
but its implementation files are not part of the sources at hand, so those
definitions are modelled from the specification document; each such
definition says so in its doc comment.  The storage layer definitions are
translated directly from `src/core/storage/secrets.ts`.
-/

set_option autoImplicit false

namespace HookEngine

/-- Modelled from the spec: the JSON documents exchanged on the wire
protocol (§6).  The implementation's JSON type is not in the sources at
hand; this is a standard JSON value tree. -/
inductive Json where
  | null
  | bool (b : Bool)
  | num (n : Int)
  | str (s : String)
  | arr (items : List Json)
  | obj (fields : List (String × Json))

/-- Left brace character, written by code point. -/
def lbrace : Char := Char.ofNat 123

/-- Right brace character, written by code point. -/
def rbrace : Char := Char.ofNat 125

/-- JSON insignificant whitespace. -/
def jsonWs (c : Char) : Bool :=
  (c == ' ') || (c == '\n') || (c == '\t') || (c == '\r')

/-- Drop leading JSON whitespace. -/
def skipWs (cs : List Char) : List Char :=
  cs.dropWhile jsonWs

/-- Unescape one character following a backslash in a JSON string: the three
control-character escapes map to their control characters, and the
self-representing escapes (quote, backslash, slash) map to themselves. -/
def unescapeChar (c : Char) : Option Char :=
  if c == 'n' then some '\n'
  else if c == 't' then some '\t'
  else if c == 'r' then some '\r'
  else if c == '"' || c == '\\' || c == '/' then some c
  else none

/-- Parse the body of a JSON string after the opening quote, returning the
content characters and the remaining input after the closing quote. -/
def parseStringBody : List Char → Option (List Char × List Char)
  | [] => none
  | c :: cs =>
    if c == '"' then some ([], cs)
    else if c == '\\' then
      match cs with
      | [] => none
      | e :: cs2 =>
        match unescapeChar e, parseStringBody cs2 with
        | some ce, some (content, rest) => some (ce :: content, rest)
        | _, _ => none
    else
      match parseStringBody cs with
      | some (content, rest) => some (c :: content, rest)
      | none => none

/-- Numeric value of a list of decimal digits. -/
def digitsToNat (ds : List Char) : Nat :=
  ds.foldl (fun a c => a * 10 + (c.toNat - 48)) 0

/-- Parse a JSON integer (optional minus sign and decimal digits). -/
def parseNumber (cs : List Char) : Option (Json × List Char) :=
  match cs with
  | '-' :: cs1 =>
    let ds := cs1.takeWhile Char.isDigit
    if ds.isEmpty then none
    else some (Json.num (-(digitsToNat ds : Int)), cs1.dropWhile Char.isDigit)
  | _ =>
    let ds := cs.takeWhile Char.isDigit
    if ds.isEmpty then none
    else some (Json.num (digitsToNat ds), cs.dropWhile Char.isDigit)

mutual

/-- Modelled from the spec: the textual parse step of the ResponseDecoder
(§4.4, §6) — "exactly one JSON document on the child's output stream"; the
implementation's parser is not in the sources at hand.  Fuel-indexed JSON
value parser. -/
def parseValue : Nat → List Char → Option (Json × List Char)
  | 0, _ => none
  | Nat.succ fuel, cs =>
    match skipWs cs with
    | [] => none
    | c :: rest =>
      if c == 'n' then
        match rest with
        | 'u' :: 'l' :: 'l' :: r => some (Json.null, r)
        | _ => none
      else if c == 't' then
        match rest with
        | 'r' :: 'u' :: 'e' :: r => some (Json.bool true, r)
        | _ => none
      else if c == 'f' then
        match rest with
        | 'a' :: 'l' :: 's' :: 'e' :: r => some (Json.bool false, r)
        | _ => none
      else if c == '"' then
        match parseStringBody rest with
        | some (content, r) => some (Json.str (String.mk content), r)
        | none => none
      else if c == '[' then
        match skipWs rest with
        | ']' :: r => some (Json.arr [], r)
        | _ =>
          match parseValue fuel rest with
          | some (v, r2) => parseArrayTail fuel r2 [v]
          | none => none
      else if c == lbrace then
        match skipWs rest with
        | [] => none
        | c2 :: r =>
          if c2 == rbrace then some (Json.obj [], r)
          else
            match parseField fuel (c2 :: r) with
            | some (kv, r2) => parseObjectTail fuel r2 [kv]
            | none => none
      else parseNumber (c :: rest)

/-- After one or more array items have been parsed (held reversed in `acc`),
consume either a closing bracket or a comma and a further item. -/
def parseArrayTail : Nat → List Char → List Json → Option (Json × List Char)
  | 0, _, _ => none
  | Nat.succ fuel, cs, acc =>
    match skipWs cs with
    | ']' :: r => some (Json.arr acc.reverse, r)
    | ',' :: r =>
      match parseValue fuel r with
      | some (v, r2) => parseArrayTail fuel r2 (v :: acc)
      | none => none
    | _ => none

/-- Parse one `"key": value` member of a JSON object. -/
def parseField : Nat → List Char → Option ((String × Json) × List Char)
  | 0, _ => none
  | Nat.succ fuel, cs =>
    match skipWs cs with
    | '"' :: r =>
      match parseStringBody r with
      | some (content, r2) =>
        match skipWs r2 with
        | ':' :: r3 =>
          match parseValue fuel r3 with
          | some (v, r4) => some ((String.mk content, v), r4)
          | none => none
        | _ => none
      | none => none
    | _ => none

/-- After one or more object members have been parsed (held reversed in
`acc`), consume either a closing brace or a comma and a further member. -/
def parseObjectTail : Nat → List Char → List (String × Json) → Option (Json × List Char)
  | 0, _, _ => none
  | Nat.succ fuel, cs, acc =>
    match skipWs cs with
    | [] => none
    | c :: r =>
      if c == rbrace then some (Json.obj acc.reverse, r)
      else if c == ',' then
        match parseField fuel r with
        | some (kv, r2) => parseObjectTail fuel r2 (kv :: acc)
        | none => none
      else none

end

/-- Modelled from the spec: parse a whole captured stdout as a single JSON
document (§6: "exactly one JSON document on the child's output stream; any
other output is a protocol violation"). -/
def parseJson (s : String) : Option Json :=
  match parseValue (s.length + 1) s.data with
  | some (j, rest) => if (skipWs rest).isEmpty then some j else none
  | none => none

/-- Field lookup in a parsed JSON object; `none` on non-objects. -/
def Json.getField (j : Json) (name : String) : Option Json :=
  match j with
  | Json.obj fields => fields.lookup name
  | _ => none

/-- Extract a boolean JSON value. -/
def Json.asBool : Json → Option Bool
  | Json.bool b => some b
  | _ => none

/-- Extract a string JSON value. -/
def Json.asString : Json → Option String
  | Json.str s => some s
  | _ => none

/-- Modelled from the spec: `HookResponse`, "the structure a script must emit
on its output stream" (§3); the implementation's type is not in the sources
at hand.  Missing fields are filled with defaults by the decoder, so the
embedded record carries all three fields. -/
structure HookResponse where
  shouldContinue : Bool
  contextModification : String
  errorMessage : String
deriving DecidableEq

/-- Modelled from the spec: `AggregateResult` has "the same shape as
`HookResponse`" (§3). -/
abbrev AggregateResult := HookResponse

/-- Modelled from the spec: the outcome of `ProcessInvoker.invoke`,
"`{exitCode, stdout, stderr}`" (§4.3); the invoker itself spawns OS
processes and is represented by its captured outcome. -/
structure ProcessResult where
  exitCode : Int
  stdout : String
  stderr : String
deriving DecidableEq

/-- Modelled from the spec: `HookExecutionError` (§7), which "always carries
the hook name and a human-readable cause". -/
structure HookExecutionError where
  message : String
deriving DecidableEq

/-- Modelled from the spec: the field-extraction half of the ResponseDecoder
(§3, §4.4) — "absence of any field is legal; the decoder must accept partial
objects and fill defaults (`shouldContinue = true`, others = empty)". -/
def decodeFields (j : Json) : HookResponse :=
  { shouldContinue := ((j.getField "shouldContinue").bind Json.asBool).getD true
    contextModification := ((j.getField "contextModification").bind Json.asString).getD ""
    errorMessage := ((j.getField "errorMessage").bind Json.asString).getD "" }

/-- Modelled from the spec: `ResponseDecoder.decode` (§4.4).  A nonzero exit
code fails with a message stating the hook name and the exit code; a zero
exit code whose stdout does not parse fails with "Failed to parse hook
output"; otherwise missing fields are defaulted. -/
def decode (hookName : String) (r : ProcessResult) : Except HookExecutionError HookResponse :=
  if r.exitCode = 0 then
    match parseJson r.stdout with
    | some j => Except.ok (decodeFields j)
    | none => Except.error ⟨"Failed to parse hook output from " ++ hookName⟩
  else
    Except.error ⟨hookName ++ " exited with code " ++ toString r.exitCode⟩

/-- Modelled from the spec: the two hook policy classes (§4.5) — blocking
hooks (the default class) and fire-and-forget hooks. -/
inductive HookPolicy where
  | blocking
  | fireAndForget
deriving DecidableEq

/-- Modelled from the spec: the registration point mapping each hook name to
its policy class; the cancellation event (`TaskCancel`) is the named
fire-and-forget hook, every other hook name is in the default blocking
class. -/
def policyOf (hookName : String) : HookPolicy :=
  if hookName == "TaskCancel" then HookPolicy.fireAndForget else HookPolicy.blocking

/-- Modelled from the spec: the fold shared by both policy classes of
`ResultCombiner.combine` (§4.5).  `shouldContinue` is false exactly when
some response vetoes; the surfaced `errorMessage` is that of the first
response (in descriptor order) with `shouldContinue = false`; non-empty
`contextModification` values are joined with a newline in descriptor
order. -/
def combineResponses (rs : List HookResponse) : AggregateResult :=
  { shouldContinue := rs.all (fun r => r.shouldContinue)
    contextModification :=
      String.intercalate "\n" ((rs.map (fun r => r.contextModification)).filter (fun s => s != ""))
    errorMessage :=
      match rs.find? (fun r => !r.shouldContinue) with
      | some v => v.errorMessage
      | none => "" }

/-- Modelled from the spec: `ResultCombiner.combine` (§4.5), "applying
per-hook-type policy".  For both classes the data combination is the same
fold: for fire-and-forget hooks, `shouldContinue = false` responses and
`errorMessage`s "are passed through verbatim in the aggregate without being
treated as a veto" — the policies differ in how the caller acts on the
aggregate, not in the aggregate itself. -/
def combine (hookName : String) (rs : List HookResponse) : AggregateResult :=
  match policyOf hookName with
  | HookPolicy.blocking => combineResponses rs
  | HookPolicy.fireAndForget => combineResponses rs

/-- Modelled from the spec: the decode stage of `HookRunner.run` (§4.6) —
each bound descriptor's captured process outcome is decoded in descriptor
order; the first decoder error propagates. -/
def decodeAll (hookName : String) : List ProcessResult → Except HookExecutionError (List HookResponse)
  | [] => Except.ok []
  | r :: rest =>
    match decode hookName r with
    | Except.error e => Except.error e
    | Except.ok resp =>
      match decodeAll hookName rest with
      | Except.error e => Except.error e
      | Except.ok rs => Except.ok (resp :: rs)

/-- Modelled from the spec: `HookRunner.run` (§4.6), represented by its
result-processing pipeline.  The invoker's side effects (process spawning)
are summarised by the list of per-descriptor `ProcessResult`s, given in
descriptor order (global before workspace); `run` decodes each and combines
the responses, and "if the decoder raises for any descriptor, the error
propagates out of `run` without executing combination". -/
def run (hookName : String) (results : List ProcessResult) : Except HookExecutionError AggregateResult :=
  match decodeAll hookName results with
  | Except.error e => Except.error e
  | Except.ok rs => Except.ok (combine hookName rs)

end HookEngine

namespace Storage

/-- A primitive operation performed on a subclass's own backing store
(`_get` / `_store` / `_delete` bodies in `secrets.ts`). -/
inductive BackendAction where
  | bget (key : String)
  | bstore (key value : String)
  | bdelete (key : String)
deriving DecidableEq

/-- An observable action of a `ClineStorage` method: either a backend
primitive, or the delivery of a change event `{ key }` to one subscriber
(one call performed by `ClineStorage.fire`). -/
inductive Action where
  | backend (a : BackendAction)
  | notify (subscriber : Nat) (key : String)
deriving DecidableEq

/-- Whether an action is a change-event delivery. -/
def Action.isNotify : Action → Bool
  | Action.notify _ _ => true
  | _ => false

/-- The state of a `ClineStorage` object: the subclass's backing store
together with the `subscribers` array (subscribers are identified by
numbers; `onDidChange` appends to this list). -/
structure ClineStorageState (σ : Type) where
  backend : σ
  subscribers : List Nat

/-- The protected abstract methods a `ClineStorage` subclass implements
(`_get`, `_store`, `_delete`).  Each returns `Except`: a rejected promise is
`Except.error`.  A mutation returns the new backing store and the backend
actions it performed; by the shape of this record a subclass primitive
cannot deliver change events (in the sources at hand no subclass calls
`fire`). -/
structure StorageImpl (σ : Type) where
  getImpl : σ → String → Except String (Option String × List BackendAction)
  storeImpl : σ → String → String → Except String (σ × List BackendAction)
  deleteImpl : σ → String → Except String (σ × List BackendAction)

namespace ClineStorage

/-- Method `ClineStorage.fire`: deliver a change event carrying `key` to every
current subscriber. -/
def fire (subs : List Nat) (key : String) : List Action :=
  subs.map (fun s => Action.notify s key)

/-- Method `ClineStorage.get`: `return await this._get(key)` — no change event is
fired.  Returns the value together with the trace of performed actions. -/
def get {σ : Type} (impl : StorageImpl σ) (st : ClineStorageState σ) (key : String) :
    Except String (Option String × List Action) :=
  match impl.getImpl st.backend key with
  | Except.error e => Except.error e
  | Except.ok (v, bas) => Except.ok (v, bas.map Action.backend)

/-- Method `ClineStorage.store`: `await this._store(key, value); await this.fire(key)`.
If `_store` rejects, the rejection propagates and no event is fired;
otherwise every subscriber receives one change event after the backend
actions. -/
def store {σ : Type} (impl : StorageImpl σ) (st : ClineStorageState σ) (key value : String) :
    Except String (ClineStorageState σ × List Action) :=
  match impl.storeImpl st.backend key value with
  | Except.error e => Except.error e
  | Except.ok (b, bas) =>
    Except.ok (⟨b, st.subscribers⟩, bas.map Action.backend ++ fire st.subscribers key)

/-- Method `ClineStorage.delete`: `await this._delete(key); await this.fire(key)`. -/
def delete {σ : Type} (impl : StorageImpl σ) (st : ClineStorageState σ) (key : String) :
    Except String (ClineStorageState σ × List Action) :=
  match impl.deleteImpl st.backend key with
  | Except.error e => Except.error e
  | Except.ok (b, bas) =>
    Except.ok (⟨b, st.subscribers⟩, bas.map Action.backend ++ fire st.subscribers key)

end ClineStorage

/-- Insert-or-replace for an association-list map, keeping the original
position of an existing key (`Map.set` semantics). -/
def setEntry : List (String × String) → String → String → List (String × String)
  | [], k, v => [(k, v)]
  | (k', v') :: rest, k, v =>
    if k' = k then (k, v) :: rest else (k', v') :: setEntry rest k v

/-- Remove a key from an association-list map (`Map.delete` semantics). -/
def eraseEntry : List (String × String) → String → List (String × String)
  | [], _ => []
  | (k', v') :: rest, k =>
    if k' = k then rest else (k', v') :: eraseEntry rest k

/-- Subclass `InMemoryClineStorage`: the `Map`-backed subclass.  `_get` reads the
cache, `_store` sets, `_delete` deletes; none of them can reject. -/
def InMemoryClineStorage.impl : StorageImpl (List (String × String)) :=
  { getImpl := fun m key => Except.ok (m.lookup key, [BackendAction.bget key])
    storeImpl := fun m key value => Except.ok (setEntry m key value, [BackendAction.bstore key value])
    deleteImpl := fun m key => Except.ok (eraseEntry m key, [BackendAction.bdelete key]) }

/-- The underlying `SecretStores` backend handed to `ClineSecretStorage.init`
(VSCode secret storage or another `ClineStorage`): a key/value map plus the
set of keys on which its `get` rejects. -/
structure UnderlyingStorage where
  values : List (String × String)
  failingGetKeys : List String
deriving DecidableEq

/-- The underlying store's `get`: rejects on a failing key, otherwise
resolves to the stored value (or `undefined`). -/
def UnderlyingStorage.get (u : UnderlyingStorage) (key : String) : Except String (Option String) :=
  if key ∈ u.failingGetKeys then Except.error "secret storage get failed"
  else Except.ok (u.values.lookup key)

/-- The underlying store's `store`. -/
def UnderlyingStorage.store (u : UnderlyingStorage) (key value : String) : UnderlyingStorage :=
  { u with values := setEntry u.values key value }

/-- The underlying store's `delete`. -/
def UnderlyingStorage.delete (u : UnderlyingStorage) (key : String) : UnderlyingStorage :=
  { u with values := eraseEntry u.values key }

/-- The private state of `ClineSecretStorage`: whether `init` has been
called (`secretStorage !== null`) and the underlying store.  When `inited`
is false the underlying field is ignored by every operation. -/
structure SecretState where
  inited : Bool
  underlying : UnderlyingStorage
deriving DecidableEq

namespace ClineSecretStorage

/-- The `storage` getter: throws `"[ClineSecretStorage] init not called"`
when `init` has not been called, otherwise returns the underlying store. -/
def storage (st : SecretState) : Except String UnderlyingStorage :=
  if st.inited then Except.ok st.underlying
  else Except.error "[ClineSecretStorage] init not called"

/-- The body of the `try` block of `ClineSecretStorage._get`:
`key ? await this.storage.get(key) : undefined`. -/
def rawGet (st : SecretState) (key : String) : Except String (Option String) :=
  if key = "" then Except.ok none
  else
    match storage st with
    | Except.error e => Except.error e
    | Except.ok u => u.get key

/-- Method `ClineSecretStorage._get`: the `try` body with a `catch` that logs and
resolves to `undefined`. -/
def _get (st : SecretState) (key : String) : Except String (Option String) :=
  match rawGet st key with
  | Except.ok v => Except.ok v
  | Except.error _ => Except.ok none

/-- The body of the `try` block of `ClineSecretStorage._store`:
`if (value && value.length > 0) { await this.storage.store(key, value) }` —
for a string, `value && value.length > 0` is truthy exactly when the value
is non-empty. -/
def rawStore (st : SecretState) (key value : String) :
    Except String (SecretState × List BackendAction) :=
  if value = "" then Except.ok (st, [])
  else
    match storage st with
    | Except.error e => Except.error e
    | Except.ok u =>
      Except.ok ({ st with underlying := u.store key value }, [BackendAction.bstore key value])

/-- Method `ClineSecretStorage._store`: the `try` body with a `catch` that logs and
resolves without storing. -/
def _store (st : SecretState) (key value : String) :
    Except String (SecretState × List BackendAction) :=
  match rawStore st key value with
  | Except.ok r => Except.ok r
  | Except.error _ => Except.ok (st, [])

/-- Method `ClineSecretStorage._delete`: logs and deletes — no `try`/`catch`, so a
failing `storage` getter rejects. -/
def _delete (st : SecretState) (key : String) :
    Except String (SecretState × List BackendAction) :=
  match storage st with
  | Except.error e => Except.error e
  | Except.ok u =>
    Except.ok ({ st with underlying := u.delete key }, [BackendAction.bdelete key])

/-- Record view of `ClineSecretStorage` as a `ClineStorage` subclass. -/
def impl : StorageImpl SecretState :=
  { getImpl := fun st key => (ClineSecretStorage._get st key).map (fun v => (v, [BackendAction.bget key]))
    storeImpl := ClineSecretStorage._store
    deleteImpl := ClineSecretStorage._delete }

end ClineSecretStorage

end Storage

/-! ## Theorems about the hook engine -/

namespace HookEngine

theorem intercalate_singleton (sep x : String) : sep.intercalate [x] = x := rfl

theorem decode_of_nonzero_exit (hookName : String) (r : ProcessResult) (h : r.exitCode ≠ 0) :
    decode hookName r =
      Except.error ⟨hookName ++ " exited with code " ++ toString r.exitCode⟩ := by
  simp [decode, h]

theorem decode_of_parse_failure (hookName : String) (r : ProcessResult) (h0 : r.exitCode = 0)
    (hp : parseJson r.stdout = none) :
    decode hookName r = Except.error ⟨"Failed to parse hook output from " ++ hookName⟩ := by
  simp [decode, h0, hp]

theorem decodeAll_error_of_ok_prefix (hookName : String) (r : ProcessResult)
    (post : List ProcessResult) (e : HookExecutionError) :
    ∀ pre : List ProcessResult, (∀ p ∈ pre, (decode hookName p).isOk = true) →
      decode hookName r = Except.error e →
      decodeAll hookName (pre ++ r :: post) = Except.error e := by
  intro pre
  induction pre with
  | nil => intro _ herr; simp [decodeAll, herr]
  | cons p ps ih =>
    intro hpre herr
    have hp : (decode hookName p).isOk = true := hpre p (by simp)
    cases hdp : decode hookName p with
    | error e' => rw [hdp] at hp; simp [Except.isOk, Except.toBool] at hp
    | ok resp =>
      have htail := ih (fun q hq => hpre q (by simp [hq])) herr
      simp [decodeAll, hdp, htail]

theorem decodeAll_error_of_mem (hookName : String) (r : ProcessResult) (e : HookExecutionError) :
    ∀ results : List ProcessResult, r ∈ results → decode hookName r = Except.error e →
      ∃ e', decodeAll hookName results = Except.error e' := by
  intro results
  induction results with
  | nil => intro hmem; exact absurd hmem (List.not_mem_nil r)
  | cons p ps ih =>
    intro hmem herr
    cases hdp : decode hookName p with
    | error e' => exact ⟨e', by simp [decodeAll, hdp]⟩
    | ok resp =>
      rcases List.mem_cons.mp hmem with hEq | hmem'
      · rw [← hEq] at hdp; rw [hdp] at herr; exact absurd herr (by simp)
      · obtain ⟨e', he'⟩ := ih hmem' herr
        exact ⟨e', by simp [decodeAll, hdp, he']⟩

/-- C1: for every hook name — including hooks in the fire-and-forget policy
class such as `TaskCancel` — a script exiting with a nonzero code makes
`run` raise a `HookExecutionError` (never swallowed), and, when the
descriptors preceding it decode cleanly, the raised error's message matches
`<hookName>.*exited with code <exitCode>`. -/
theorem run_raises_on_nonzero_exit (hookName : String) (pre post : List ProcessResult)
    (r : ProcessResult) (hcode : r.exitCode ≠ 0) :
    (∃ e, run hookName (pre ++ r :: post) = Except.error e) ∧
    ((∀ p ∈ pre, (decode hookName p).isOk = true) →
      ∃ e, run hookName (pre ++ r :: post) = Except.error e ∧
        ∃ a m b, e.message = a ++ hookName ++ m ++ ("exited with code " ++ toString r.exitCode) ++ b) := by
  have hdec := decode_of_nonzero_exit hookName r hcode
  constructor
  · obtain ⟨e', he'⟩ :=
      decodeAll_error_of_mem hookName r _ (pre ++ r :: post) (by simp) hdec
    exact ⟨e', by simp [run, he']⟩
  · intro hpre
    have h := decodeAll_error_of_ok_prefix hookName r post _ pre hpre hdec
    refine ⟨⟨hookName ++ " exited with code " ++ toString r.exitCode⟩, by simp [run, h],
      "", " ", "", ?_⟩
    have hlit : (" exited with code " : String) = " " ++ "exited with code " := rfl
    simp only [String.empty_append, String.append_empty]
    rw [hlit, ← String.append_assoc hookName " " "exited with code ", String.append_assoc]

/-- Witness for C1 at a concrete failing script: hook `TaskCancel`, exit
code 1. -/
theorem run_raises_on_nonzero_exit_witness :
    ((⟨1, "", ""⟩ : ProcessResult).exitCode ≠ 0) ∧
    (∃ e, run "TaskCancel" [⟨1, "", ""⟩] = Except.error e ∧
      ∃ a m b, e.message =
        a ++ "TaskCancel" ++ m ++ ("exited with code " ++ toString (1 : Int)) ++ b) := by
  have h := run_raises_on_nonzero_exit "TaskCancel" [] [] ⟨1, "", ""⟩ (by decide)
  exact ⟨by decide, h.2 (by simp)⟩

/-- C2: for a fire-and-forget hook, a single script exiting 0 with a
well-formed response carrying `shouldContinue = false` and a non-empty
`errorMessage` makes `run` return normally, with `shouldContinue = false`
and the `errorMessage` passed through unchanged. -/
theorem run_fireAndForget_soft_failure (hookName : String)
    (hpol : policyOf hookName = HookPolicy.fireAndForget)
    (r : ProcessResult) (resp : HookResponse)
    (hdec : decode hookName r = Except.ok resp)
    (hsc : resp.shouldContinue = false) (hne : resp.errorMessage ≠ "") :
    ∃ agg, run hookName [r] = Except.ok agg ∧
      agg.shouldContinue = false ∧ agg.errorMessage = resp.errorMessage := by
  refine ⟨combine hookName [resp], ?_, ?_, ?_⟩
  · simp [run, decodeAll, hdec]
  · simp [combine, hpol, combineResponses, hsc]
  · simp [combine, hpol, combineResponses, List.find?, hsc]

/-- Witness for C2: a concrete `TaskCancel` script emitting
`shouldContinue = false` with an error message. -/
theorem run_fireAndForget_soft_failure_witness :
    ∃ agg,
      run "TaskCancel"
        [⟨0, "\x7b\"shouldContinue\": false, \"errorMessage\": \"blocked\"\x7d", ""⟩] =
        Except.ok agg ∧
      agg.shouldContinue = false ∧ agg.errorMessage = "blocked" := by
  have h := run_fireAndForget_soft_failure "TaskCancel" (by decide)
    ⟨0, "\x7b\"shouldContinue\": false, \"errorMessage\": \"blocked\"\x7d", ""⟩
    ⟨false, "", "blocked"⟩ (by rfl) (by rfl) (by decide)
  exact h

/-- C3: for every hook name, a script exiting 0 whose stdout does not parse
as the response protocol makes `run` fail with a `HookExecutionError`
matching `Failed to parse hook output` (when the descriptors preceding it
decode cleanly); a zero exit code is never coerced into a default-success
response. -/
theorem run_raises_on_unparseable_output (hookName : String) (pre post : List ProcessResult)
    (r : ProcessResult) (hzero : r.exitCode = 0) (hparse : parseJson r.stdout = none) :
    (∃ e, run hookName (pre ++ r :: post) = Except.error e) ∧
    ((∀ p ∈ pre, (decode hookName p).isOk = true) →
      ∃ e, run hookName (pre ++ r :: post) = Except.error e ∧
        ∃ a b, e.message = a ++ "Failed to parse hook output" ++ b) := by
  have hdec := decode_of_parse_failure hookName r hzero hparse
  constructor
  · obtain ⟨e', he'⟩ :=
      decodeAll_error_of_mem hookName r _ (pre ++ r :: post) (by simp) hdec
    exact ⟨e', by simp [run, he']⟩
  · intro hpre
    have h := decodeAll_error_of_ok_prefix hookName r post _ pre hpre hdec
    refine ⟨⟨"Failed to parse hook output from " ++ hookName⟩, by simp [run, h],
      "", " from " ++ hookName, ?_⟩
    have hlit : ("Failed to parse hook output from " : String) =
        "Failed to parse hook output" ++ " from " := rfl
    rw [String.empty_append, hlit, String.append_assoc]

/-- Witness for C3: hook `TaskCancel`, a script printing `not valid json`
with exit code 0. -/
theorem run_raises_on_unparseable_output_witness :
    ((⟨0, "not valid json", ""⟩ : ProcessResult).exitCode = 0) ∧
    parseJson "not valid json" = none ∧
    (∃ e, run "TaskCancel" [⟨0, "not valid json", ""⟩] = Except.error e ∧
      ∃ a b, e.message = a ++ "Failed to parse hook output" ++ b) := by
  have h := run_raises_on_unparseable_output "TaskCancel" [] [] ⟨0, "not valid json", ""⟩
    (by decide) (by rfl)
  exact ⟨by decide, by rfl, h.2 (by simp)⟩

/-- C4: for every hook name with zero resolved descriptors, `run` succeeds
with the default aggregate: `shouldContinue = true`, empty
`contextModification`, empty `errorMessage`. -/
theorem run_no_descriptors (hookName : String) :
    run hookName [] = Except.ok ⟨true, "", ""⟩ := by
  cases hpol : policyOf hookName with
  | blocking => simp [run, decodeAll, combine, hpol, combineResponses, String.intercalate]
  | fireAndForget => simp [run, decodeAll, combine, hpol, combineResponses, String.intercalate]

/-- Witness for C4 at a concrete hook name. -/
theorem run_no_descriptors_witness :
    run "TaskCancel" [] = Except.ok ⟨true, "", ""⟩ :=
  run_no_descriptors "TaskCancel"

/-- C5: when every descriptor decodes, `run` combines in descriptor order
and the aggregate's `contextModification` is the newline-join of the
non-empty per-response values, with empty contributions omitted; for a
single response with non-empty value `X` the aggregate value is exactly
`X`. -/
theorem run_context_join (hookName : String) (results : List ProcessResult)
    (rs : List HookResponse) (hdec : decodeAll hookName results = Except.ok rs) :
    run hookName results = Except.ok (combine hookName rs) ∧
    (combine hookName rs).contextModification =
      String.intercalate "\n" ((rs.map (fun r => r.contextModification)).filter (fun s => s != "")) ∧
    (∀ r0 : HookResponse, rs = [r0] → r0.contextModification ≠ "" →
      (combine hookName rs).contextModification = r0.contextModification) := by
  refine ⟨by simp [run, hdec], ?_, ?_⟩
  · cases hpol : policyOf hookName <;> simp [combine, hpol, combineResponses]
  · intro r0 hrs hne
    subst hrs
    have hb : (r0.contextModification != "") = true := by simp [hne]
    cases hpol : policyOf hookName <;>
      simp [combine, hpol, combineResponses, List.filter, hb, intercalate_singleton]

/-- Witness for C5: a single `TaskCancel` script returning
`contextModification = "X"`; the aggregate equals `"X"` exactly. -/
theorem run_context_join_witness :
    run "TaskCancel" [⟨0, "\x7b\"contextModification\": \"X\"\x7d", ""⟩] =
      Except.ok (combine "TaskCancel" [⟨true, "X", ""⟩]) ∧
    (combine "TaskCancel" [⟨true, "X", ""⟩]).contextModification = "X" := by
  have h := run_context_join "TaskCancel"
    [⟨0, "\x7b\"contextModification\": \"X\"\x7d", ""⟩] [⟨true, "X", ""⟩] (by rfl)
  exact ⟨h.1, h.2.2 ⟨true, "X", ""⟩ rfl (by decide)⟩

theorem find?_first_veto (v : HookResponse) (post : List HookResponse)
    (hv : v.shouldContinue = false) :
    ∀ pre : List HookResponse, (∀ p ∈ pre, p.shouldContinue = true) →
      (pre ++ v :: post).find? (fun r => !r.shouldContinue) = some v := by
  intro pre
  induction pre with
  | nil => intro _; simp [List.find?_cons, hv]
  | cons p ps ih =>
    intro hpre
    have hp : p.shouldContinue = true := hpre p (by simp)
    simp [List.find?_cons, hp, ih (fun q hq => hpre q (by simp [hq]))]

/-- C6: for a blocking hook, the aggregate's `shouldContinue` is false
exactly when some response vetoes; the surfaced `errorMessage` is that of
the first vetoing response in descriptor order; and `contextModification`
values are concatenated regardless of any veto. -/
theorem combine_blocking (hookName : String) (hpol : policyOf hookName = HookPolicy.blocking)
    (rs : List HookResponse) :
    ((combine hookName rs).shouldContinue = false ↔ ∃ r ∈ rs, r.shouldContinue = false) ∧
    (∀ pre v post, rs = pre ++ v :: post → (∀ p ∈ pre, p.shouldContinue = true) →
      v.shouldContinue = false → (combine hookName rs).errorMessage = v.errorMessage) ∧
    (combine hookName rs).contextModification =
      String.intercalate "\n" ((rs.map (fun r => r.contextModification)).filter (fun s => s != "")) := by
  refine ⟨?_, ?_, ?_⟩
  · simp only [combine, hpol, combineResponses]
    rw [List.all_eq_false]
    constructor
    · rintro ⟨r, hr, hfalse⟩
      exact ⟨r, hr, by simpa using hfalse⟩
    · rintro ⟨r, hr, hfalse⟩
      exact ⟨r, hr, by simp [hfalse]⟩
  · intro pre v post hrs hpre hv
    subst hrs
    simp [combine, hpol, combineResponses, find?_first_veto v post hv pre hpre]
  · simp [combine, hpol, combineResponses]

/-- Witness for C6: a blocking hook (`TaskStart`) with a passing global
response and a vetoing workspace response. -/
theorem combine_blocking_witness :
    (combine "TaskStart" [⟨true, "G", ""⟩, ⟨false, "W", "stop"⟩]).shouldContinue = false ∧
    (combine "TaskStart" [⟨true, "G", ""⟩, ⟨false, "W", "stop"⟩]).errorMessage = "stop" := by
  have h := combine_blocking "TaskStart" (by decide) [⟨true, "G", ""⟩, ⟨false, "W", "stop"⟩]
  refine ⟨h.1.mpr ⟨⟨false, "W", "stop"⟩, by simp, rfl⟩, ?_⟩
  refine h.2.1 [⟨true, "G", ""⟩] ⟨false, "W", "stop"⟩ [] rfl ?_ rfl
  intro p hp
  rw [List.mem_singleton] at hp
  subst hp
  rfl

/-- C7: any stdout parsing as a JSON object decodes successfully whatever
subset of protocol fields is absent, with `shouldContinue` defaulting to
true and the string fields to empty — absence of a field is never a decode
failure. -/
theorem decode_fills_defaults (hookName stdout stderr : String)
    (fields : List (String × Json)) (hparse : parseJson stdout = some (Json.obj fields)) :
    decode hookName ⟨0, stdout, stderr⟩ = Except.ok (decodeFields (Json.obj fields)) ∧
    (fields.lookup "shouldContinue" = none →
      (decodeFields (Json.obj fields)).shouldContinue = true) ∧
    (fields.lookup "contextModification" = none →
      (decodeFields (Json.obj fields)).contextModification = "") ∧
    (fields.lookup "errorMessage" = none →
      (decodeFields (Json.obj fields)).errorMessage = "") := by
  refine ⟨by simp [decode, hparse], ?_, ?_, ?_⟩ <;>
    intro h <;> simp [decodeFields, Json.getField, h]

/-- Witness for C7: the empty JSON object `{}` decodes to the all-default
response. -/
theorem decode_fills_defaults_witness :
    decode "TaskCancel" ⟨0, "\x7b\x7d", ""⟩ = Except.ok (decodeFields (Json.obj [])) ∧
    (decodeFields (Json.obj [])).shouldContinue = true ∧
    (decodeFields (Json.obj [])).contextModification = "" ∧
    (decodeFields (Json.obj [])).errorMessage = "" := by
  have h := decode_fills_defaults "TaskCancel" "\x7b\x7d" "" [] (by rfl)
  exact ⟨h.1, h.2.1 rfl, h.2.2.1 rfl, h.2.2.2 rfl⟩

end HookEngine

/-! ## Theorems about the storage layer -/

namespace Storage

theorem count_notify_map_backend (bas : List BackendAction) (sub : Nat) (key : String) :
    (bas.map Action.backend).count (Action.notify sub key) = 0 := by
  induction bas with
  | nil => rfl
  | cons b bs ih => simp [List.count_cons, ih]

theorem count_notify_fire (subs : List Nat) (sub : Nat) (key : String) :
    (ClineStorage.fire subs key).count (Action.notify sub key) = subs.count sub := by
  induction subs with
  | nil => rfl
  | cons s ss ih =>
    simp only [ClineStorage.fire] at ih ⊢
    simp [List.count_cons, ih]

theorem mem_fire_iff (subs : List Nat) (key : String) (sub : Nat) (k : String) :
    Action.notify sub k ∈ ClineStorage.fire subs key ↔ k = key ∧ sub ∈ subs := by
  simp only [ClineStorage.fire, List.mem_map]
  constructor
  · rintro ⟨s, hs, heq⟩
    obtain ⟨h1, h2⟩ := Action.notify.inj heq.symm
    exact ⟨h2, by rw [h1]; exact hs⟩
  · rintro ⟨rfl, hsub⟩
    exact ⟨sub, hsub, rfl⟩

theorem trace_spec (bas : List BackendAction) (subs : List Nat) (key : String)
    (hnd : subs.Nodup) :
    (∀ sub ∈ subs,
      (bas.map Action.backend ++ ClineStorage.fire subs key).count (Action.notify sub key) = 1) ∧
    (∀ sub k, Action.notify sub k ∈ bas.map Action.backend ++ ClineStorage.fire subs key →
      k = key ∧ sub ∈ subs) ∧
    (∃ bpart npart, bas.map Action.backend ++ ClineStorage.fire subs key = bpart ++ npart ∧
      (∀ a ∈ bpart, a.isNotify = false) ∧ (∀ a ∈ npart, a.isNotify = true)) := by
  refine ⟨?_, ?_, ?_⟩
  · intro sub hsub
    rw [List.count_append, count_notify_map_backend, count_notify_fire,
      List.count_eq_one_of_mem hnd hsub]
  · intro sub k hmem
    rcases List.mem_append.mp hmem with hb | hf
    · obtain ⟨b, _, hbe⟩ := List.mem_map.mp hb
      cases hbe
    · exact (mem_fire_iff subs key sub k).mp hf
  · refine ⟨bas.map Action.backend, ClineStorage.fire subs key, rfl, ?_, ?_⟩
    · intro a ha
      obtain ⟨b, _, rfl⟩ := List.mem_map.mp ha
      rfl
    · intro a ha
      obtain ⟨s, _, rfl⟩ := List.mem_map.mp ha
      rfl

/-- C8: for any `ClineStorage` subclass and state with distinct subscribers,
a completed `store` or `delete` call delivers exactly one change event
carrying its key to each subscriber registered at that moment (and to
nobody else), every event is delivered after the backend primitive's
actions have completed, and `get` never delivers a change event. -/
theorem ClineStorage.mutation_fires_once {σ : Type} (impl : StorageImpl σ)
    (st : ClineStorageState σ) (key value : String) (hnd : st.subscribers.Nodup) :
    (∀ st' tr, ClineStorage.store impl st key value = Except.ok (st', tr) →
      (∀ sub ∈ st.subscribers, tr.count (Action.notify sub key) = 1) ∧
      (∀ sub k, Action.notify sub k ∈ tr → k = key ∧ sub ∈ st.subscribers) ∧
      (∃ bpart npart, tr = bpart ++ npart ∧
        (∀ a ∈ bpart, a.isNotify = false) ∧ (∀ a ∈ npart, a.isNotify = true))) ∧
    (∀ st' tr, ClineStorage.delete impl st key = Except.ok (st', tr) →
      (∀ sub ∈ st.subscribers, tr.count (Action.notify sub key) = 1) ∧
      (∀ sub k, Action.notify sub k ∈ tr → k = key ∧ sub ∈ st.subscribers) ∧
      (∃ bpart npart, tr = bpart ++ npart ∧
        (∀ a ∈ bpart, a.isNotify = false) ∧ (∀ a ∈ npart, a.isNotify = true))) ∧
    (∀ out tr, ClineStorage.get impl st key = Except.ok (out, tr) →
      ∀ a ∈ tr, a.isNotify = false) := by
  refine ⟨?_, ?_, ?_⟩
  · intro st' tr h
    cases himpl : impl.storeImpl st.backend key value with
    | error e => rw [ClineStorage.store, himpl] at h; cases h
    | ok p =>
      obtain ⟨b, bas⟩ := p
      rw [ClineStorage.store, himpl] at h
      cases h
      exact trace_spec bas st.subscribers key hnd
  · intro st' tr h
    cases himpl : impl.deleteImpl st.backend key with
    | error e => rw [ClineStorage.delete, himpl] at h; cases h
    | ok p =>
      obtain ⟨b, bas⟩ := p
      rw [ClineStorage.delete, himpl] at h
      cases h
      exact trace_spec bas st.subscribers key hnd
  · intro out tr h
    cases himpl : impl.getImpl st.backend key with
    | error e => rw [ClineStorage.get, himpl] at h; cases h
    | ok p =>
      obtain ⟨v, bas⟩ := p
      rw [ClineStorage.get, himpl] at h
      cases h
      intro a ha
      obtain ⟨b, _, rfl⟩ := List.mem_map.mp ha
      rfl

/-- Witness for C8: the in-memory subclass with two subscribers; storing
under `"a"` delivers one event per subscriber. -/
theorem ClineStorage.mutation_fires_once_witness :
    List.count (Action.notify 0 "a")
      [Action.backend (BackendAction.bstore "a" "2"), Action.notify 0 "a", Action.notify 1 "a"]
      = 1 := by
  have h := (ClineStorage.mutation_fires_once InMemoryClineStorage.impl
    ⟨[("a", "1")], [0, 1]⟩ "a" "2" (by decide)).1
    ⟨[("a", "2")], [0, 1]⟩
    [Action.backend (BackendAction.bstore "a" "2"), Action.notify 0 "a", Action.notify 1 "a"]
    rfl
  exact h.1 0 (by decide)

/-- C9: `ClineSecretStorage.store` with the empty string performs no write
to the underlying secret store — the value under every key is unchanged —
yet the change event for the key is still fired to the subscribers. -/
theorem ClineSecretStorage.store_empty_value (cs : ClineStorageState SecretState)
    (key : String) :
    (∀ st' tr, ClineStorage.store ClineSecretStorage.impl cs key "" = Except.ok (st', tr) →
      (∀ k, st'.backend.underlying.values.lookup k = cs.backend.underlying.values.lookup k) ∧
      (∀ sub ∈ cs.subscribers, Action.notify sub key ∈ tr)) ∧
    ClineStorage.store ClineSecretStorage.impl cs key "" =
      Except.ok (cs, ClineStorage.fire cs.subscribers key) := by
  have hstore : ClineStorage.store ClineSecretStorage.impl cs key "" =
      Except.ok (cs, ClineStorage.fire cs.subscribers key) := by
    show (match ClineSecretStorage._store cs.backend key "" with
      | Except.error e => Except.error e
      | Except.ok (b, bas) =>
        Except.ok ((⟨b, cs.subscribers⟩ : ClineStorageState SecretState),
          bas.map Action.backend ++ ClineStorage.fire cs.subscribers key)) =
      Except.ok (cs, ClineStorage.fire cs.subscribers key)
    simp [ClineSecretStorage._store, ClineSecretStorage.rawStore]
  refine ⟨?_, hstore⟩
  intro st' tr h
  rw [hstore] at h
  cases h
  exact ⟨fun k => rfl, fun sub hsub => (mem_fire_iff cs.subscribers key sub key).mpr ⟨rfl, hsub⟩⟩

/-- Witness for C9: a concrete initialized secret store with one stored
value and one subscriber. -/
theorem ClineSecretStorage.store_empty_value_witness :
    ClineStorage.store ClineSecretStorage.impl
      ⟨⟨true, ⟨[("a", "1")], []⟩⟩, [0]⟩ "k" "" =
      Except.ok (⟨⟨true, ⟨[("a", "1")], []⟩⟩, [0]⟩, [Action.notify 0 "k"]) ∧
    Action.notify 0 "k" ∈ [Action.notify 0 "k"] := by
  have h := ClineSecretStorage.store_empty_value ⟨⟨true, ⟨[("a", "1")], []⟩⟩, [0]⟩ "k"
  exact ⟨h.2, (h.1 _ _ h.2).2 0 (by decide)⟩

/-- C10: `ClineSecretStorage._get` never rejects: it resolves to
`undefined` when the key is empty, when `init` has not been called, or when
the underlying storage's `get` throws, and otherwise resolves to the
backend's value for the key. -/
theorem ClineSecretStorage.get_never_rejects (st : SecretState) (key : String) :
    (ClineSecretStorage._get st key).isOk = true ∧
    (key = "" → ClineSecretStorage._get st key = Except.ok none) ∧
    (st.inited = false → ClineSecretStorage._get st key = Except.ok none) ∧
    (key ∈ st.underlying.failingGetKeys → ClineSecretStorage._get st key = Except.ok none) ∧
    (key ≠ "" → st.inited = true → key ∉ st.underlying.failingGetKeys →
      ClineSecretStorage._get st key = Except.ok (st.underlying.values.lookup key)) := by
  have hchar : ClineSecretStorage._get st key = Except.ok
      (if key = "" then none
       else if st.inited = false then none
       else if key ∈ st.underlying.failingGetKeys then none
       else st.underlying.values.lookup key) := by
    simp only [ClineSecretStorage._get, ClineSecretStorage.rawGet, ClineSecretStorage.storage,
      UnderlyingStorage.get]
    by_cases hk : key = "" <;> by_cases hi : st.inited = true <;>
      by_cases hf : key ∈ st.underlying.failingGetKeys <;>
      simp [hk, hi, hf]
  refine ⟨by rw [hchar]; rfl, ?_, ?_, ?_, ?_⟩
  · intro h; rw [hchar]; simp [h]
  · intro h; rw [hchar]; simp [h]
  · intro h; rw [hchar]; simp [h]
  · intro h1 h2 h3; rw [hchar]; simp [h1, h2, h3]

/-- Witness for C10: an initialized store holding `("a", "1")` whose
underlying `get` throws on `"boom"`. -/
theorem ClineSecretStorage.get_never_rejects_witness :
    (ClineSecretStorage._get ⟨true, ⟨[("a", "1")], ["boom"]⟩⟩ "a").isOk = true ∧
    ClineSecretStorage._get ⟨true, ⟨[("a", "1")], ["boom"]⟩⟩ "a" = Except.ok (some "1") ∧
    ClineSecretStorage._get ⟨true, ⟨[("a", "1")], ["boom"]⟩⟩ "boom" = Except.ok none ∧
    ClineSecretStorage._get ⟨true, ⟨[("a", "1")], ["boom"]⟩⟩ "" = Except.ok none := by
  have h1 := ClineSecretStorage.get_never_rejects ⟨true, ⟨[("a", "1")], ["boom"]⟩⟩ "a"
  have h2 := ClineSecretStorage.get_never_rejects ⟨true, ⟨[("a", "1")], ["boom"]⟩⟩ "boom"
  have h3 := ClineSecretStorage.get_never_rejects ⟨true, ⟨[("a", "1")], ["boom"]⟩⟩ ""
  refine ⟨h1.1, ?_, h2.2.2.2.1 (by decide), h3.2.1 rfl⟩
  have h := h1.2.2.2.2 (by decide) rfl (by decide)
  simpa using h

end Storage
